import Mathlib

/-!
Shallow embedding of the `modal-examples` repository's glue code, for checking
the natural-language specification against the source.

Covered source:
* `10_integrations/tidbyt/tidbyt.py`: the `poem` web endpoint, the `write_poem`
  streaming aggregator, and the `get_ymdh` time-bucket resolver.
* `02_building_containers/cuda/use_cuda.py`: the `nvidia_smi` diagnostic probe.

Python strings are modelled as `List Char` (`PyStr`); the relevant string
methods (`strip`, `split`, `splitlines`, slicing, `join`) are embedded below,
following CPython semantics on the deployment platform (glibc).  The mounted
volume is modelled as an association list from paths to file entries; a file
entry either yields text on read or raises some exception, so that the
endpoint's exception handling is visible in the model.
-/

namespace Tidbyt

/-- A Python `str`, modelled as its sequence of code points. -/
abbrev PyStr := List Char

/-- The whitespace recognised by Python's `str.strip()`. -/
def isPySpace (c : Char) : Bool :=
  c = ' ' || c = '\t' || c = '\n' || c = '\r' || c = '\x0b' || c = '\x0c' ||
  c = '\x1c' || c = '\x1d' || c = '\x1e' || c = '\x1f' || c = '\x85' || c = '\xa0' ||
  c = ' ' || (' ' ≤ c && c ≤ ' ') ||
  c = ' ' || c = ' ' || c = ' ' || c = ' ' || c = '　'

/-- Python `s.strip()`: drop leading and trailing whitespace. -/
def pyStrip (s : PyStr) : PyStr :=
  ((s.dropWhile isPySpace).reverse.dropWhile isPySpace).reverse

/-- Python `s.split(sep)` for a one-character separator `sep`: split on every
occurrence, keeping empty pieces; the result is always nonempty and splitting
the empty string yields `[[]]`.  `List.splitOn` has exactly these semantics. -/
def pySplit (c : Char) (s : PyStr) : List PyStr :=
  s.splitOn c

/-- The line boundaries recognised by Python's `str.splitlines()`. -/
def isLineBoundary (c : Char) : Bool :=
  c = '\n' || c = '\r' || c = '\x0b' || c = '\x0c' ||
  c = '\x1c' || c = '\x1d' || c = '\x1e' || c = '\x85' ||
  c = ' ' || c = ' '

/-- Python `s.splitlines()`: split at line boundaries, treating `"\r\n"` as a
single boundary; a trailing boundary does not produce a final empty line, and
the empty string has no lines. -/
def pySplitlines : PyStr → List PyStr
  | [] => []
  | [x] => if isLineBoundary x then [[]] else [[x]]
  | x :: y :: xs =>
    if x = '\r' && y = '\n' then [] :: pySplitlines xs
    else if isLineBoundary x then [] :: pySplitlines (y :: xs)
    else
      match pySplitlines (y :: xs) with
      | [] => [[x]]
      | h :: t => (x :: h) :: t

/-- Python `sep.join(pieces)` for the strings modelled here. -/
def pyJoin (sep : PyStr) (pieces : List PyStr) : PyStr :=
  List.intercalate sep pieces

/-- Strings with no line-boundary characters. -/
def boundaryFree (p : Tidbyt.PyStr) : Prop :=
  ∀ c ∈ p, isLineBoundary c = false

/-! ## JSON values and the streaming aggregator of `write_poem`

`write_poem` reads the completion response in chunks; each chunk is decoded,
stripped, and split on newlines; each nonempty line has its first six
characters dropped and the remainder passed to `json.loads`; on success the
object's `"text"` entry is appended to the accumulator, a `JSONDecodeError`
is printed and skipped, and any other failure (missing `"text"` key, value of
the wrong type) escapes the `try` block and aborts the function.  The decoder
`json.loads` itself is third-party library code, so it enters the model as an
abstract function `loads` producing an optional `Json` value. -/
/-- A parsed JSON value, as produced by `json.loads`. -/
inductive Json where
  | null
  | bool (b : Bool)
  | num (n : Int)
  | str (s : Tidbyt.PyStr)
  | arr (elems : List Json)
  | obj (fields : List (Tidbyt.PyStr × Json))

/-- The key `"text"` looked up in each streamed fragment. -/
def textKey : PyStr := "text".data

/-- `data[k]` followed by string concatenation: succeeds exactly when `data`
is an object carrying key `k` with a string value; anything else raises
(`KeyError` / `TypeError`), modelled as `none`. -/
def jsonStrField (j : Json) (k : PyStr) : Option PyStr :=
  match j with
  | Json.obj fields =>
    match fields.lookup k with
    | some (Json.str s) => some s
    | _ => none
  | _ => none

/-- One iteration of the inner loop of `write_poem`: skip empty lines, parse
`line[6:]`, append the `"text"` field; `none` models an uncaught exception. -/
def lineStep (loads : PyStr → Option Json) (poem line : PyStr) : Option PyStr :=
  if line = [] then some poem
  else
    match loads (line.drop 6) with
    | none => some poem
    | some data =>
      match jsonStrField data textKey with
      | some s => some (poem ++ s)
      | none => none

/-- The lines of one decoded chunk: `chunk.strip().split("\n")`. -/
def chunkLines (chunk : PyStr) : List PyStr :=
  pySplit '\n' (pyStrip chunk)

/-- The inner `for line in ...` loop of `write_poem`. -/
def linesFold (loads : PyStr → Option Json) : List PyStr → PyStr → Option PyStr
  | [], poem => some poem
  | l :: ls, poem =>
    match lineStep loads poem l with
    | none => none
    | some p => linesFold loads ls p

/-- The outer `for chunk in response.iter_content(...)` loop of `write_poem`. -/
def chunksFold (loads : PyStr → Option Json) : List PyStr → PyStr → Option PyStr
  | [], poem => some poem
  | ch :: chs, poem =>
    match linesFold loads (chunkLines ch) poem with
    | none => none
    | some p => chunksFold loads chs p

/-- The full aggregation loop of `write_poem`, starting from the empty poem. -/
def aggregate (loads : PyStr → Option Json) (chunks : List PyStr) : Option PyStr :=
  chunksFold loads chunks []

/-- `"\n".join(poem.strip().splitlines()[:3])`: the truncation applied to the
aggregated poem before printing, writing, and returning it. -/
def truncate3 (p : PyStr) : PyStr :=
  pyJoin ['\n'] ((pySplitlines (pyStrip p)).take 3)

/-- The fragments of a streamed response: the nonempty lines of each decoded
chunk, in arrival order. -/
def fragments (chunks : List PyStr) : List PyStr :=
  ((chunks.map chunkLines).flatten).filter (fun l => l ≠ [])

/-- The `"text"` field a fragment contributes: `none` when the fragment is
empty or its remainder after the six-character marker fails to decode. -/
def fragText (loads : PyStr → Option Json) (line : PyStr) : Option PyStr :=
  if line = [] then none
  else (loads (line.drop 6)).bind (fun d => jsonStrField d textKey)

/-- The concatenation, in arrival order, of the `"text"` fields of the
fragments that decode successfully. -/
def concatTexts (loads : PyStr → Option Json) (chunks : List PyStr) : PyStr :=
  ((fragments chunks).filterMap (fragText loads)).flatten

/-- A line is benign when a successful decode always carries a string
`"text"` field, so the only possible failure is a skipped decode error. -/
def BenignLine (loads : PyStr → Option Json) (line : PyStr) : Prop :=
  ∀ d, loads (line.drop 6) = some d → ∃ s, jsonStrField d textKey = some s

/-! ## `get_ymdh`: time-bucket resolution

`get_ymdh` formats `datetime.now(eastern)` — optionally shifted by
`timedelta(hours=1)` — with `strftime("%Y %m %d %H")`.  Adding a `timedelta`
to an aware datetime is plain calendar arithmetic on the wall-clock fields
(the `pytz` tzinfo is carried along unchanged), so the model works directly
on the New York wall-clock calendar datetime.  `datetime` supports years 1
through 9999 and raises `OverflowError` past the maximum, modelled by an
`Option` result. -/
/-- A wall-clock `datetime` value (sub-second precision is irrelevant here). -/
structure PyDateTime where
  year : Nat
  month : Nat
  day : Nat
  hour : Nat
  minute : Nat
  second : Nat
deriving DecidableEq

/-- The Gregorian leap-year rule, as in `calendar.isleap`. -/
def isLeap (y : Nat) : Bool :=
  (y % 4 == 0 && y % 100 != 0) || y % 400 == 0

/-- Days in a month of the proleptic Gregorian calendar. -/
def daysInMonth (y m : Nat) : Nat :=
  if m = 2 then (if isLeap y then 29 else 28)
  else if m = 4 ∨ m = 6 ∨ m = 9 ∨ m = 11 then 30
  else 31

/-- The invariant `datetime` maintains on its fields. -/
def ValidDT (t : PyDateTime) : Prop :=
  1 ≤ t.year ∧ t.year ≤ 9999 ∧ 1 ≤ t.month ∧ t.month ≤ 12 ∧
  1 ≤ t.day ∧ t.day ≤ daysInMonth t.year t.month ∧
  t.hour ≤ 23 ∧ t.minute ≤ 59 ∧ t.second ≤ 59

instance (t : PyDateTime) : Decidable (ValidDT t) := by
  unfold ValidDT
  infer_instance

/-- `t + timedelta(hours=1)`: calendar arithmetic on the wall-clock fields,
with `none` for the `OverflowError` past `datetime.max`. -/
def addOneHour (t : PyDateTime) : Option PyDateTime :=
  if t.hour < 23 then some { t with hour := t.hour + 1 }
  else if t.day < daysInMonth t.year t.month then
    some { t with hour := 0, day := t.day + 1 }
  else if t.month < 12 then
    some { t with hour := 0, day := 1, month := t.month + 1 }
  else if t.year < 9999 then
    some { t with hour := 0, day := 1, month := 1, year := t.year + 1 }
  else none

/-- Days in the months strictly before month `m` of year `y`. -/
def daysBeforeMonth (y m : Nat) : Nat :=
  (if 2 < m then (if isLeap y then 1 else 0) else 0) +
  match m with
  | 1 => 0 | 2 => 31 | 3 => 59 | 4 => 90 | 5 => 120 | 6 => 151
  | 7 => 181 | 8 => 212 | 9 => 243 | 10 => 273 | 11 => 304 | 12 => 334
  | _ => 0

/-- Days in the years strictly before year `y` (proleptic Gregorian). -/
def daysBeforeYear (y : Nat) : Nat :=
  365 * (y - 1) + (y - 1) / 4 - (y - 1) / 100 + (y - 1) / 400

/-- Absolute day index of a calendar date. -/
def toDays (t : PyDateTime) : Nat :=
  daysBeforeYear t.year + daysBeforeMonth t.year t.month + (t.day - 1)

/-- Absolute hour index of a calendar datetime: the linear timeline in which
"exactly one hour later" is `+ 1`. -/
def toHours (t : PyDateTime) : Nat :=
  24 * toDays t + t.hour

/-- The decimal digits of a natural number, most significant first. -/
def natDigits (n : Nat) : PyStr :=
  if _h : n < 10 then [Nat.digitChar n]
  else natDigits (n / 10) ++ [Nat.digitChar (n % 10)]
decreasing_by exact Nat.div_lt_self (by omega) (by omega)

/-- `strftime("%Y")` on the deployment platform (glibc): the year as a plain
decimal number with no zero-padding (year 999 renders as `"999"`). -/
def fmtY (n : Nat) : PyStr :=
  natDigits n

/-- `strftime` two-digit zero-padded rendering, used for `%m`, `%d`, `%H`. -/
def pad2 (n : Nat) : PyStr :=
  List.replicate (2 - (natDigits n).length) '0' ++ natDigits n

/-- The four formatted components `strftime("%Y %m %d %H").split()` yields. -/
def fmtYmdh (t : PyDateTime) : PyStr × PyStr × PyStr × PyStr :=
  (fmtY t.year, pad2 t.month, pad2 t.day, pad2 t.hour)

/-- `get_ymdh`: format the current New York wall-clock datetime, advanced by
one hour when `next_hour` is set (`timedelta(hours=int(next_hour))`).  `none`
models the `OverflowError` at `datetime.max`. -/
def get_ymdh (now : PyDateTime) (next_hour : Bool) :
    Option (PyStr × PyStr × PyStr × PyStr) :=
  (if next_hour then addOneHour now else some now).map fmtYmdh

/-! ## The poems volume, the `poem` endpoint, and `write_poem` -/
/-- A file on the volume: reading it either yields text or raises some
exception (for instance on undecodable bytes), carried as its message. -/
inductive Entry where
  | text (s : Tidbyt.PyStr)
  | unreadable (emsg : Tidbyt.PyStr)
deriving DecidableEq

/-- A filesystem path, as its list of components. -/
abbrev PyPath := List Tidbyt.PyStr

/-- The mounted volume: an association list from paths to file entries, where
an earlier binding shadows a later one. -/
abbrev Volume := List (PyPath × Entry)

/-- `poems_path = Path("/root/poems")`. -/
def poems_path : PyPath :=
  ["root".data, "poems".data]

/-- The path `poems_path / year / month / day / hour / "poem.txt"`. -/
def bucketPath (y m d h : PyStr) : PyPath :=
  poems_path ++ [y, m, d, h, "poem.txt".data]

/-- Look a path up on the volume. -/
def volRead (vol : Volume) (p : PyPath) : Option Entry :=
  List.lookup p vol

/-- `open(path, "w")` followed by `f.write(s)`: create or overwrite. -/
def volWrite (vol : Volume) (p : PyPath) (s : PyStr) : Volume :=
  (p, Entry.text s) :: vol

/-- The exceptions `path.read_text()` can raise, by handler arm. -/
inductive ReadErr where
  | fileNotFound (emsg : PyStr)
  | other (emsg : PyStr)
deriving DecidableEq

/-- The message a `FileNotFoundError` for `p` carries. -/
def fnfMsg (p : PyPath) : PyStr :=
  "[Errno 2] No such file or directory: '/".data ++ pyJoin ['/'] p ++ ['\'']

/-- `path.read_text()` against the modelled volume. -/
def read_text (vol : Volume) (p : PyPath) : Except ReadErr PyStr :=
  match volRead vol p with
  | none => Except.error (ReadErr.fileNotFound (fnfMsg p))
  | some (Entry.unreadable e) => Except.error (ReadErr.other e)
  | some (Entry.text s) => Except.ok s

/-- The placeholder verse substituted on `FileNotFoundError`. -/
def fnfVerse (e : PyStr) : PyStr :=
  ("A message in red, so sudden and abrupt,\nFile not found, a poem corrupt?" ++
    "\nFIleNotFoundError: ").data ++ e

/-- The placeholder verse substituted on any other exception. -/
def unkVerse (e : PyStr) : PyStr :=
  ("An unknown exception, caught by surprise,\nSilent code fails, " ++
    "under the user's eyes.\nException: ").data ++ e

/-- The `try`/`except FileNotFoundError`/`except Exception` block of the
`poem` endpoint. -/
def handleRead : Except ReadErr PyStr → PyStr
  | Except.ok s => s
  | Except.error (ReadErr.fileNotFound e) => fnfVerse e
  | Except.error (ReadErr.other e) => unkVerse e

/-- The `poem` web endpoint: resolve the current hour's bucket, read the poem
file, and substitute a placeholder verse on failure.  The endpoint performs no
write, so the volume passes through unchanged. -/
def poem (now : PyDateTime) (vol : Volume) : PyStr × Volume :=
  match get_ymdh now false with
  | some (y, m, d, h) => (handleRead (read_text vol (bucketPath y m d h)), vol)
  | none => ([], vol)

/-- `write_poem`: resolve the next hour's bucket, aggregate the streamed
completion (only when the response status is 200), truncate to three lines,
and write the result to the bucket's `poem.txt`.  `none` models an uncaught
exception (a non-`JSONDecodeError` failure inside the loop, or datetime
overflow). -/
def write_poem (loads : PyStr → Option Json) (now : PyDateTime) (status : Nat)
    (chunks : List PyStr) (vol : Volume) : Option (PyStr × Volume) :=
  match get_ymdh now true with
  | none => none
  | some (y, m, d, h) =>
    match (if status = 200 then aggregate loads chunks else some []) with
    | none => none
    | some agg =>
      some (truncate3 agg, volWrite vol (bucketPath y m d h) (truncate3 agg))

end Tidbyt

namespace Cuda

open Tidbyt (PyStr pySplit pyJoin)

/-! ## The `nvidia_smi` diagnostic probe of `use_cuda.py`

`nvidia_smi` first asserts that running `nvidia-smi` exits with code zero,
then parses the XML produced by `nvidia-smi -q -u -x` and asserts that the
driver version's major component is `535` and that the CUDA version is
exactly `12.2`.  The parsed document enters the model as a tag-to-text
mapping (`root.find(tag).text`); a missing tag makes `find` return `None`,
so the subsequent `.text` raises `AttributeError` rather than a failed
assertion. -/
/-- The exceptions the probe can raise. -/
inductive PyError where
  | assertionError
  | attributeError
deriving DecidableEq

/-- The parsed XML document, as the mapping from tag names to text. -/
abbrev XmlDoc := List (PyStr × PyStr)

/-- `root.find(tag).text`, with `none` when the tag is absent. -/
def findText (doc : XmlDoc) (tag : PyStr) : Option PyStr :=
  List.lookup tag doc

/-- The `driver_version` tag. -/
def driverTag : PyStr := "driver_version".data

/-- The `cuda_version` tag. -/
def cudaTag : PyStr := "cuda_version".data

/-- The body of `nvidia_smi`, given the exit code of the plain `nvidia-smi`
run and the parsed XML document of the second run. -/
def nvidia_smi (rc : Nat) (doc : XmlDoc) : Except PyError Unit :=
  if rc ≠ 0 then Except.error PyError.assertionError
  else
    match findText doc driverTag with
    | none => Except.error PyError.attributeError
    | some dv =>
      if (pySplit '.' dv).headD [] ≠ "535".data then
        Except.error PyError.assertionError
      else
        match findText doc cudaTag with
        | none => Except.error PyError.attributeError
        | some cv =>
          if pySplit '.' cv ≠ ["12".data, "2".data] then
            Except.error PyError.assertionError
          else Except.ok ()

end Cuda

namespace Tidbyt

/-- Joining the pieces of `pySplit` with the separator recovers the string. -/
theorem pyJoin_pySplit (c : Char) (s : PyStr) :
    pyJoin [c] (pySplit c s) = s := by
  unfold pyJoin pySplit
  exact List.intercalate_splitOn s c

/-- Every line produced by `pySplitlines` is free of line boundaries. -/
theorem pySplitlines_boundary_free (s : PyStr) :
    ∀ l ∈ pySplitlines s, ∀ c ∈ l, isLineBoundary c = false := by
  induction s using pySplitlines.induct with
  | case1 => simp [pySplitlines]
  | case2 x hb =>
    intro l hl c hc
    simp [pySplitlines, hb] at hl
    simp [hl] at hc
  | case3 x hb =>
    intro l hl c hc
    simp [pySplitlines, hb] at hl
    simp [hl] at hc
    subst hc
    simpa using hb
  | case4 x y xs hcr ih =>
    intro l hl c hc
    simp only [pySplitlines, hcr, if_true, List.mem_cons] at hl
    rcases hl with h | h
    · simp [h] at hc
    · exact ih l h c hc
  | case5 x y xs hcr hb ih =>
    intro l hl c hc
    simp only [pySplitlines, hcr, hb, if_false, if_true, Bool.false_eq_true,
      List.mem_cons] at hl
    rcases hl with h | h
    · simp [h] at hc
    · exact ih l h c hc
  | case6 x y xs hcr hb hps ih =>
    intro l hl c hc
    simp only [pySplitlines, hcr, hb, hps, Bool.false_eq_true, if_false,
      List.mem_singleton] at hl
    subst hl
    rcases List.mem_singleton.mp hc with rfl
    simpa using hb
  | case7 x y xs hcr hb h t hps ih =>
    intro l hl c hc
    simp only [pySplitlines, hcr, hb, hps, Bool.false_eq_true, if_false,
      List.mem_cons] at hl
    rcases hl with hl | hl
    · subst hl
      rcases List.mem_cons.mp hc with rfl | hc2
      · simpa using hb
      · exact ih h (hps ▸ List.mem_cons_self h t) c hc2
    · exact ih l (hps ▸ List.mem_cons_of_mem h hl) c hc

/-- A boundary-free string is a single line (or no line at all when empty). -/
theorem pySplitlines_boundary_free_eq (p : PyStr) (hp : boundaryFree p) :
    pySplitlines p = if p = [] then [] else [p] := by
  induction p with
  | nil => simp [pySplitlines]
  | cons a p ih =>
    have ha : isLineBoundary a = false := hp a (List.mem_cons_self a p)
    have hp2 : boundaryFree p := fun c hc => hp c (List.mem_cons_of_mem a hc)
    cases p with
    | nil => simp [pySplitlines, ha]
    | cons z zs =>
      have har : a ≠ '\x0d' := by
        intro h
        rw [h] at ha
        simp [isLineBoundary] at ha
      rw [pySplitlines]
      rw [if_neg (by simp [har]), if_neg (by simp [ha])]
      rw [ih hp2, if_neg (by simp)]
      simp

/-- Prepending one boundary-free line and a newline prepends one line to the
result of `pySplitlines`. -/
theorem pySplitlines_append_newline (p : PyStr) (hp : boundaryFree p)
    (rest : PyStr) :
    pySplitlines (p ++ '\n' :: rest) = p :: pySplitlines rest := by
  induction p with
  | nil =>
    cases rest with
    | nil => simp [pySplitlines, isLineBoundary]
    | cons r rs =>
      rw [List.nil_append, pySplitlines]
      rw [if_neg (by simp), if_pos (by simp [isLineBoundary])]
  | cons a p ih =>
    have ha : isLineBoundary a = false := hp a (List.mem_cons_self a p)
    have hp2 : boundaryFree p := fun c hc => hp c (List.mem_cons_of_mem a hc)
    have har : a ≠ '\x0d' := by
      intro h
      rw [h] at ha
      simp [isLineBoundary] at ha
    cases hz : p ++ '\n' :: rest with
    | nil => exact absurd hz (by simp)
    | cons z zs =>
      have : pySplitlines (p ++ '\n' :: rest) = p :: pySplitlines rest := ih hp2
      rw [List.cons_append, hz, pySplitlines]
      rw [if_neg (by simp [har]), if_neg (by simp [ha])]
      rw [← hz, this]

/-- Joining at most `n` boundary-free pieces with a newline yields a string
with at most `n` lines. -/
theorem pySplitlines_pyJoin_le (ps : List PyStr)
    (hps : ∀ p ∈ ps, boundaryFree p) :
    (pySplitlines (pyJoin ['\n'] ps)).length ≤ ps.length := by
  induction ps with
  | nil => simp [pyJoin, List.intercalate, pySplitlines]
  | cons p ps ih =>
    have hp : boundaryFree p := hps p (List.mem_cons_self p ps)
    have hps2 : ∀ q ∈ ps, boundaryFree q := fun q hq => hps q (List.mem_cons_of_mem p hq)
    cases ps with
    | nil =>
      rw [show pyJoin ['\n'] [p] = p by simp [pyJoin, List.intercalate]]
      rw [pySplitlines_boundary_free_eq p hp]
      split <;> simp
    | cons q qs =>
      have hjoin : pyJoin ['\n'] (p :: q :: qs) = p ++ '\n' :: pyJoin ['\n'] (q :: qs) := by
        simp [pyJoin, List.intercalate]
      rw [hjoin, pySplitlines_append_newline p hp]
      simpa using ih hps2

theorem linesFold_eq (loads : PyStr → Option Json) (ls : List PyStr)
    (hls : ∀ l ∈ ls, l ≠ [] → BenignLine loads l) (poem : PyStr) :
    linesFold loads ls poem =
      some (poem ++ (ls.filterMap (fragText loads)).flatten) := by
  induction ls generalizing poem with
  | nil => simp [linesFold]
  | cons l ls ih =>
    have hls2 : ∀ q ∈ ls, q ≠ [] → BenignLine loads q :=
      fun q hq => hls q (List.mem_cons_of_mem l hq)
    by_cases hemp : l = []
    · have hstep : lineStep loads poem l = some poem := by simp [lineStep, hemp]
      have hfrag : fragText loads l = none := by simp [fragText, hemp]
      simp only [linesFold, hstep, List.filterMap_cons, hfrag]
      exact ih hls2 poem
    · cases hld : loads (l.drop 6) with
      | none =>
        have hstep : lineStep loads poem l = some poem := by simp [lineStep, hemp, hld]
        have hfrag : fragText loads l = none := by simp [fragText, hemp, hld]
        simp only [linesFold, hstep, List.filterMap_cons, hfrag]
        exact ih hls2 poem
      | some d =>
        obtain ⟨s, hs⟩ := hls l (List.mem_cons_self l ls) hemp d hld
        have hstep : lineStep loads poem l = some (poem ++ s) := by
          simp [lineStep, hemp, hld, hs]
        have hfrag : fragText loads l = some s := by simp [fragText, hemp, hld, hs]
        simp only [linesFold, hstep, List.filterMap_cons, hfrag, List.flatten_cons]
        rw [ih hls2 (poem ++ s)]
        simp [List.append_assoc]

theorem chunksFold_eq (loads : PyStr → Option Json) (chs : List PyStr)
    (hchs : ∀ l ∈ (chs.map chunkLines).flatten, l ≠ [] → BenignLine loads l)
    (poem : PyStr) :
    chunksFold loads chs poem =
      some (poem ++ (((chs.map chunkLines).flatten).filterMap (fragText loads)).flatten) := by
  induction chs generalizing poem with
  | nil => simp [chunksFold]
  | cons ch chs ih =>
    have hch : ∀ l ∈ chunkLines ch, l ≠ [] → BenignLine loads l := by
      intro l hl
      refine hchs l ?_
      simp only [List.map_cons, List.flatten_cons, List.mem_append]
      exact Or.inl hl
    have hrest : ∀ l ∈ (chs.map chunkLines).flatten, l ≠ [] → BenignLine loads l := by
      intro l hl
      refine hchs l ?_
      simp only [List.map_cons, List.flatten_cons, List.mem_append]
      exact Or.inr hl
    have hlines := linesFold_eq loads (chunkLines ch) hch poem
    simp only [chunksFold, hlines]
    rw [ih hrest]
    simp [List.map_cons, List.flatten_cons, List.filterMap_append, List.flatten_append,
      List.append_assoc]

theorem daysBeforeMonth_succ (y m : Nat) (h1 : 1 ≤ m) (h2 : m ≤ 11) :
    daysBeforeMonth y (m + 1) = daysBeforeMonth y m + daysInMonth y m := by
  interval_cases m <;>
    cases hleap : isLeap y <;>
      simp [daysBeforeMonth, daysInMonth, hleap]

theorem isLeap_iff (y : Nat) :
    isLeap y = true ↔ ((y % 4 = 0 ∧ y % 100 ≠ 0) ∨ y % 400 = 0) := by
  unfold isLeap
  simp [Bool.or_eq_true, Bool.and_eq_true, beq_iff_eq, bne_iff_ne]

set_option maxHeartbeats 1000000 in
theorem daysBeforeYear_succ (y : Nat) (hy : 1 ≤ y) :
    daysBeforeYear (y + 1) =
      daysBeforeYear y + 365 + (if isLeap y then 1 else 0) := by
  unfold daysBeforeYear
  by_cases hl : isLeap y
  · rw [if_pos hl]
    rw [isLeap_iff] at hl
    omega
  · rw [if_neg hl]
    rw [isLeap_iff] at hl
    omega

/-- Adding one hour moves the absolute hour index forward by exactly one and
leaves the minutes and seconds unchanged. -/
theorem addOneHour_toHours (t t' : PyDateTime) (hv : ValidDT t)
    (h : addOneHour t = some t') :
    toHours t' = toHours t + 1 ∧ t'.minute = t.minute ∧ t'.second = t.second := by
  obtain ⟨hy1, hy2, hm1, hm2, hd1, hd2, hh, hmin, hsec⟩ := hv
  unfold addOneHour at h
  by_cases hlt : t.hour < 23
  · rw [if_pos hlt] at h
    cases h
    unfold toHours toDays
    dsimp only
    omega
  · rw [if_neg hlt] at h
    have hh23 : t.hour = 23 := by omega
    by_cases hdlt : t.day < daysInMonth t.year t.month
    · rw [if_pos hdlt] at h
      cases h
      unfold toHours toDays
      dsimp only
      omega
    · rw [if_neg hdlt] at h
      have hdim : t.day = daysInMonth t.year t.month := by omega
      by_cases hmlt : t.month < 12
      · rw [if_pos hmlt] at h
        cases h
        have hstep := daysBeforeMonth_succ t.year t.month hm1 (by omega)
        have hdimpos : 1 ≤ daysInMonth t.year t.month := by
          unfold daysInMonth
          split <;> split <;> omega
        unfold toHours toDays
        dsimp only
        omega
      · rw [if_neg hmlt] at h
        have hm12 : t.month = 12 := by omega
        by_cases hylt : t.year < 9999
        · rw [if_pos hylt] at h
          cases h
          have hstep := daysBeforeYear_succ t.year hy1
          have hdim12 : daysInMonth t.year 12 = 31 := by
            unfold daysInMonth
            norm_num
          have hdbm12 : daysBeforeMonth t.year 12 =
              334 + (if isLeap t.year then 1 else 0) := by
            cases hleap : isLeap t.year <;> simp [daysBeforeMonth, hleap]
          have hdbm1 : daysBeforeMonth (t.year + 1) 1 = 0 := by
            simp [daysBeforeMonth]
          unfold toHours toDays
          dsimp only
          rw [hm12, hdbm1, hdbm12, hstep]
          rw [hm12, hdim12] at hdim
          by_cases hleap : isLeap t.year <;> simp [hleap] <;> omega
        · rw [if_neg hylt] at h
          cases h

/-- Adding one hour preserves the `datetime` field invariant. -/
theorem addOneHour_valid (t t' : PyDateTime) (hv : ValidDT t)
    (h : addOneHour t = some t') : ValidDT t' := by
  obtain ⟨hy1, hy2, hm1, hm2, hd1, hd2, hh, hmin, hsec⟩ := hv
  have hdim1 : ∀ a b, 1 ≤ daysInMonth a b := by
    intro a b
    unfold daysInMonth
    split <;> split <;> omega
  unfold addOneHour at h
  by_cases hlt : t.hour < 23
  · rw [if_pos hlt] at h
    cases h
    unfold ValidDT
    dsimp only
    exact ⟨hy1, hy2, hm1, hm2, hd1, hd2, by omega, hmin, hsec⟩
  · rw [if_neg hlt] at h
    by_cases hdlt : t.day < daysInMonth t.year t.month
    · rw [if_pos hdlt] at h
      cases h
      unfold ValidDT
      dsimp only
      exact ⟨hy1, hy2, hm1, hm2, by omega, by omega, by omega, hmin, hsec⟩
    · rw [if_neg hdlt] at h
      by_cases hmlt : t.month < 12
      · rw [if_pos hmlt] at h
        cases h
        unfold ValidDT
        dsimp only
        exact ⟨hy1, hy2, by omega, by omega, by omega, hdim1 _ _, by omega, hmin, hsec⟩
      · rw [if_neg hmlt] at h
        by_cases hylt : t.year < 9999
        · rw [if_pos hylt] at h
          cases h
          unfold ValidDT
          dsimp only
          exact ⟨by omega, by omega, by omega, by omega, by omega, hdim1 _ _, by omega,
            hmin, hsec⟩
        · rw [if_neg hylt] at h
          cases h

theorem natDigits_ne_nil (n : Nat) : natDigits n ≠ [] := by
  unfold natDigits
  split <;> simp

theorem natDigits_length_le (k : Nat) : ∀ n, 1 ≤ k → n < 10 ^ k →
    (natDigits n).length ≤ k := by
  induction k with
  | zero => omega
  | succ k ih =>
    intro n _ hn
    unfold natDigits
    split
    · simp
    · rename_i h10
      have hk : 1 ≤ k := by
        rcases Nat.eq_zero_or_pos k with hk0 | hk0
        · subst hk0
          simp at hn
          omega
        · omega
      have hdiv : n / 10 < 10 ^ k := by
        rw [Nat.div_lt_iff_lt_mul (by omega)]
        calc n < 10 ^ (k + 1) := hn
        _ = 10 ^ k * 10 := by ring
      have := ih (n / 10) hk hdiv
      simp only [List.length_append, List.length_cons, List.length_nil]
      omega

theorem natDigits_length_ge (k : Nat) : ∀ n, 10 ^ k ≤ n →
    k + 1 ≤ (natDigits n).length := by
  induction k with
  | zero =>
    intro n _
    unfold natDigits
    split <;> simp
  | succ k ih =>
    intro n hn
    unfold natDigits
    split
    · rename_i h10
      have : 10 ≤ 10 ^ (k + 1) := by
        calc 10 = 10 ^ 1 := by norm_num
        _ ≤ 10 ^ (k + 1) := Nat.pow_le_pow_right (by omega) (by omega)
      omega
    · have hdiv : 10 ^ k ≤ n / 10 := by
        rw [Nat.le_div_iff_mul_le (by omega)]
        calc 10 ^ k * 10 = 10 ^ (k + 1) := by ring
        _ ≤ n := hn
      have := ih (n / 10) hdiv
      simp only [List.length_append, List.length_cons, List.length_nil]
      omega

/-- The exact length of the padded two-digit fields. -/
theorem pad2_length (n : Nat) (hn : n ≤ 99) : (pad2 n).length = 2 := by
  have hle : (natDigits n).length ≤ 2 := natDigits_length_le 2 n (by omega) (by omega)
  have hge : 1 ≤ (natDigits n).length := by
    have := natDigits_ne_nil n
    cases h : natDigits n
    · exact absurd h this
    · simp
  unfold pad2
  simp only [List.length_append, List.length_replicate]
  omega

/-- The `%Y` field has exactly four characters when the year lies between
1000 and 9999. -/
theorem fmtY_length (n : Nat) (h1 : 1000 ≤ n) (h2 : n ≤ 9999) :
    (fmtY n).length = 4 := by
  have hle : (natDigits n).length ≤ 4 := natDigits_length_le 4 n (by omega) (by omega)
  have hge : 4 ≤ (natDigits n).length := natDigits_length_ge 3 n (by omega)
  unfold fmtY
  omega

theorem natDigits_small (n : Nat) (h : n < 10) :
    natDigits n = [Nat.digitChar n] := by
  rw [natDigits]
  rw [dif_pos h]

theorem natDigits_step (n : Nat) (h : ¬ n < 10) :
    natDigits n = natDigits (n / 10) ++ [Nat.digitChar (n % 10)] := by
  rw [natDigits]
  rw [dif_neg h]

/-- Advancing by one hour never decreases the year. -/
theorem addOneHour_year_le (t t' : PyDateTime) (h : addOneHour t = some t') :
    t.year ≤ t'.year := by
  unfold addOneHour at h
  split at h
  · cases h
    exact Nat.le_refl t.year
  · split at h
    · cases h
      exact Nat.le_refl t.year
    · split at h
      · cases h
        exact Nat.le_refl t.year
      · split at h
        · cases h
          exact Nat.le_succ t.year
        · cases h

/-- Reading back the freshly written path yields the written text. -/
theorem volRead_volWrite_self (vol : Volume) (p : PyPath) (s : PyStr) :
    volRead (volWrite vol p s) p = some (Entry.text s) := by
  simp [volRead, volWrite, List.lookup]

/-- Writing one path leaves every other path unchanged. -/
theorem volRead_volWrite_ne (vol : Volume) (p q : PyPath) (s : PyStr)
    (h : q ≠ p) : volRead (volWrite vol p s) q = volRead vol q := by
  simp only [volRead, volWrite]
  rw [List.lookup, show (q == p) = false from by simpa using h]

/-- The aggregation result, under the benign-stream hypothesis. -/
theorem aggregate_eq (loads : PyStr → Option Json) (chunks : List PyStr)
    (h : ∀ l ∈ (chunks.map chunkLines).flatten, l ≠ [] → BenignLine loads l) :
    aggregate loads chunks =
      some ((((chunks.map chunkLines).flatten).filterMap (fragText loads)).flatten) := by
  unfold aggregate
  rw [chunksFold_eq loads chunks h []]
  simp

/-- `fragText` ignores empty lines, so restricting to the nonempty fragments
does not change the extracted texts. -/
theorem filterMap_fragText_filter (loads : PyStr → Option Json)
    (ls : List PyStr) :
    (ls.filter (fun l => l ≠ [])).filterMap (fragText loads) =
      ls.filterMap (fragText loads) := by
  induction ls with
  | nil => simp
  | cons l ls ih =>
    by_cases hemp : l = []
    · subst hemp
      have hfr : fragText loads ([] : PyStr) = none := by simp [fragText]
      simp only [List.filter_cons, List.filterMap_cons, hfr]
      rw [if_neg (by simp)]
      exact ih
    · simp only [List.filter_cons]
      rw [if_pos (by simp [hemp])]
      cases hf : fragText loads l <;> simp only [List.filterMap_cons, hf, ih]

/-- When every fragment fails to decode, nothing is aggregated. -/
theorem aggregate_all_fail (loads : PyStr → Option Json) (chunks : List PyStr)
    (h : ∀ l ∈ fragments chunks, loads (l.drop 6) = none) :
    aggregate loads chunks = some [] := by
  have hben : ∀ l ∈ (chunks.map chunkLines).flatten, l ≠ [] → BenignLine loads l := by
    intro l hl hemp d hd
    have : loads (l.drop 6) = none :=
      h l (List.mem_filter.mpr ⟨hl, by simp [hemp]⟩)
    rw [this] at hd
    cases hd
  rw [aggregate_eq loads chunks hben]
  have : ((chunks.map chunkLines).flatten).filterMap (fragText loads) = [] := by
    rw [List.filterMap_eq_nil_iff]
    intro l hl
    by_cases hemp : l = []
    · simp [fragText, hemp]
    · have : loads (l.drop 6) = none :=
        h l (List.mem_filter.mpr ⟨hl, by simp [hemp]⟩)
      simp [fragText, hemp, this]
  rw [this]
  simp

/-- Truncating the empty aggregate yields the empty string. -/
theorem truncate3_nil : truncate3 [] = [] := rfl

/-! ## The claims -/
/-- Claim C1: for every streamed completion response, modelled as the decoded
chunks whose nonempty lines are the newline-delimited prefixed JSON
fragments, and whose successfully decoding fragments all carry a string
`"text"` field, the poem assembled by `write_poem`'s streaming loop equals
the concatenation of each fragment's `"text"` field in arrival order, and a
fragment whose remainder after the fixed six-character marker fails to parse
is skipped (its printed diagnostic is side-effect only) without terminating
aggregation. -/
theorem claim_c1 (loads : PyStr → Option Json) (chunks : List PyStr)
    (h : ∀ l ∈ fragments chunks, BenignLine loads l) :
    aggregate loads chunks = some (concatTexts loads chunks) := by
  have hben : ∀ l ∈ (chunks.map chunkLines).flatten, l ≠ [] → BenignLine loads l := by
    intro l hl hemp
    exact h l (List.mem_filter.mpr ⟨hl, by simp [hemp]⟩)
  rw [aggregate_eq loads chunks hben]
  unfold concatTexts fragments
  rw [filterMap_fragText_filter]

/-- Witness for C1: a stream with one well-formed fragment carrying `"hi"`
and one malformed fragment, which is skipped. -/
theorem claim_c1_witness :
    (∀ l ∈ fragments ["data: J1\nnot-json".data],
      BenignLine
        (fun s => if s = "J1".data
          then some (Json.obj [(textKey, Json.str "hi".data)]) else none) l) ∧
    aggregate
        (fun s => if s = "J1".data
          then some (Json.obj [(textKey, Json.str "hi".data)]) else none)
        ["data: J1\nnot-json".data] =
      some (concatTexts
        (fun s => if s = "J1".data
          then some (Json.obj [(textKey, Json.str "hi".data)]) else none)
        ["data: J1\nnot-json".data]) := by
  have hfr : fragments ["data: J1\nnot-json".data] =
      ["data: J1".data, "not-json".data] := by decide
  have hben : ∀ l ∈ fragments ["data: J1\nnot-json".data],
      BenignLine
        (fun s => if s = "J1".data
          then some (Json.obj [(textKey, Json.str "hi".data)]) else none) l := by
    intro l hl d hd
    rw [hfr] at hl
    rcases List.mem_cons.mp hl with rfl | hl2
    · have h6 : ("data: J1".data).drop 6 = "J1".data := by decide
      rw [h6] at hd
      have hd2 : Json.obj [(textKey, Json.str "hi".data)] = d := by simpa using hd
      subst hd2
      exact ⟨"hi".data, rfl⟩
    · rcases List.mem_singleton.mp hl2 with rfl
      have h6 : ("not-json".data).drop 6 = "on".data := by decide
      rw [h6] at hd
      simp at hd
  exact ⟨hben, claim_c1 _ _ hben⟩

/-- Claim C2: on the New York wall clock (`pytz` timedelta arithmetic shifts
the wall-clock fields), `get_ymdh` with `next_hour = True` returns exactly
the year, month, day and hour fields of the datetime one hour later — the
successor on the absolute hour timeline — rolling over day, month and year
boundaries, and agrees with what `next_hour = False` returns at that later
datetime. -/
theorem claim_c2 (t t' : PyDateTime) (hv : ValidDT t)
    (h : addOneHour t = some t') :
    toHours t' = toHours t + 1 ∧ t'.minute = t.minute ∧ t'.second = t.second ∧
    get_ymdh t true = some (fmtYmdh t') ∧ get_ymdh t' false = some (fmtYmdh t') := by
  obtain ⟨h1, h2, h3⟩ := addOneHour_toHours t t' hv h
  exact ⟨h1, h2, h3, by simp [get_ymdh, h], by simp [get_ymdh]⟩

/-- Witness for C2 at the boundary the claim quotes: 23:59 on Dec 31, 2023
advances to hour 00 of Jan 1, 2024. -/
theorem claim_c2_witness :
    ValidDT ⟨2023, 12, 31, 23, 59, 0⟩ ∧
    addOneHour ⟨2023, 12, 31, 23, 59, 0⟩ = some ⟨2024, 1, 1, 0, 59, 0⟩ ∧
    (toHours ⟨2024, 1, 1, 0, 59, 0⟩ = toHours ⟨2023, 12, 31, 23, 59, 0⟩ + 1 ∧
      (⟨2024, 1, 1, 0, 59, 0⟩ : PyDateTime).minute =
        (⟨2023, 12, 31, 23, 59, 0⟩ : PyDateTime).minute ∧
      (⟨2024, 1, 1, 0, 59, 0⟩ : PyDateTime).second =
        (⟨2023, 12, 31, 23, 59, 0⟩ : PyDateTime).second ∧
      get_ymdh ⟨2023, 12, 31, 23, 59, 0⟩ true =
        some (fmtYmdh ⟨2024, 1, 1, 0, 59, 0⟩) ∧
      get_ymdh ⟨2024, 1, 1, 0, 59, 0⟩ false =
        some (fmtYmdh ⟨2024, 1, 1, 0, 59, 0⟩)) ∧
    fmtYmdh ⟨2024, 1, 1, 0, 59, 0⟩ =
      ("2024".data, "01".data, "01".data, "00".data) := by
  have hadd : addOneHour ⟨2023, 12, 31, 23, 59, 0⟩ = some ⟨2024, 1, 1, 0, 59, 0⟩ := by
    decide
  refine ⟨by decide, hadd, claim_c2 _ _ (by decide) hadd, ?_⟩
  simp [fmtYmdh, fmtY, pad2, natDigits_step, natDigits_small, Nat.digitChar]

/-- Claim C3: whenever `write_poem` completes, the text it returns — the same
text it writes to the volume — is the newline-join of the first three lines
of the whitespace-stripped aggregate, and contains at most three lines. -/
theorem claim_c3 (loads : PyStr → Option Json) (now : PyDateTime) (status : Nat)
    (chunks : List PyStr) (vol : Volume) (p : PyStr) (v' : Volume)
    (h : write_poem loads now status chunks vol = some (p, v')) :
    (∃ agg, (if status = 200 then aggregate loads chunks else some []) = some agg ∧
      p = pyJoin ['\n'] ((pySplitlines (pyStrip agg)).take 3)) ∧
    (∃ bp, v' = volWrite vol bp p) ∧
    (pySplitlines p).length ≤ 3 := by
  unfold write_poem at h
  cases hg : get_ymdh now true with
  | none =>
    rw [hg] at h
    cases h
  | some ymdh =>
    obtain ⟨y, m, d, hh⟩ := ymdh
    rw [hg] at h
    cases ha : (if status = 200 then aggregate loads chunks else some []) with
    | none =>
      rw [ha] at h
      cases h
    | some agg =>
      rw [ha] at h
      injection h with h1
      injection h1 with hp hv
      subst hp
      subst hv
      refine ⟨⟨agg, rfl, rfl⟩, ⟨bucketPath y m d hh, rfl⟩, ?_⟩
      unfold truncate3
      calc (pySplitlines (pyJoin ['\n'] ((pySplitlines (pyStrip agg)).take 3))).length
          ≤ ((pySplitlines (pyStrip agg)).take 3).length := by
            refine pySplitlines_pyJoin_le _ ?_
            intro q hq
            exact pySplitlines_boundary_free (pyStrip agg) q (List.mem_of_mem_take hq)
        _ ≤ 3 := by
            simp [List.length_take]

/-- Witness for C3: a failed fetch (status 0) writes and returns the empty
poem, which has no lines. -/
theorem claim_c3_witness :
    (∃ agg, (if (0 : Nat) = 200 then aggregate (fun _ => none) [] else some []) =
        some agg ∧
      ([] : PyStr) = pyJoin ['\n'] ((pySplitlines (pyStrip agg)).take 3)) ∧
    (∃ bp, volWrite ([] : Volume)
        (bucketPath (fmtY 2023) (pad2 1) (pad2 2) (pad2 4)) ([] : PyStr) =
      volWrite [] bp []) ∧
    (pySplitlines ([] : PyStr)).length ≤ 3 := by
  have hadd : addOneHour ⟨2023, 1, 2, 3, 4, 5⟩ = some ⟨2023, 1, 2, 4, 4, 5⟩ := by
    decide
  have hw : write_poem (fun _ => none) ⟨2023, 1, 2, 3, 4, 5⟩ 0 [] [] =
      some ([], volWrite [] (bucketPath (fmtY 2023) (pad2 1) (pad2 2) (pad2 4)) []) := by
    unfold write_poem
    rw [show get_ymdh ⟨2023, 1, 2, 3, 4, 5⟩ true =
        some (fmtY 2023, pad2 1, pad2 2, pad2 4) from by simp [get_ymdh, hadd, fmtYmdh]]
    rfl
  exact claim_c3 _ _ _ _ _ _ _ hw

/-- Claim C4: when the current hour's poem file does not exist on the volume,
the `poem` endpoint returns the placeholder verse naming the
`FileNotFoundError` instead of propagating the filesystem error. -/
theorem claim_c4 (now : PyDateTime) (vol : Volume) (y m d h : PyStr)
    (hg : get_ymdh now false = some (y, m, d, h))
    (habs : volRead vol (bucketPath y m d h) = none) :
    (poem now vol).1 = fnfVerse (fnfMsg (bucketPath y m d h)) := by
  unfold poem
  rw [hg]
  simp [read_text, habs, handleRead]

/-- Witness for C4: the empty volume holds no poem, so the endpoint serves
the file-not-found verse. -/
theorem claim_c4_witness :
    (poem ⟨2023, 1, 2, 3, 4, 5⟩ []).1 =
      fnfVerse (fnfMsg (bucketPath (fmtY 2023) (pad2 1) (pad2 2) (pad2 3))) :=
  claim_c4 ⟨2023, 1, 2, 3, 4, 5⟩ [] _ _ _ _ rfl rfl

/-- The lengths of the four formatted components, for modern years. -/
theorem fmtYmdh_lengths (t : PyDateTime) (hv : ValidDT t) (hy : 1000 ≤ t.year) :
    (fmtY t.year).length = 4 ∧ (pad2 t.month).length = 2 ∧
    (pad2 t.day).length = 2 ∧ (pad2 t.hour).length = 2 := by
  obtain ⟨h1, h2, h3, h4, h5, h6, h7, h8, h9⟩ := hv
  have hdm : daysInMonth t.year t.month ≤ 31 := by
    unfold daysInMonth
    split <;> split <;> omega
  exact ⟨fmtY_length _ hy h2, pad2_length _ (by omega), pad2_length _ (by omega),
    pad2_length _ (by omega)⟩

/-- Counterexample to claim C5 as stated: at the valid instant
0999-01-01 00:00, the year component `strftime` produces is `"999"` — three
characters, not a zero-padded four-digit year (`%Y` does not pad on the
deployment platform). -/
theorem claim_c5_counterexample :
    ValidDT ⟨999, 1, 1, 0, 0, 0⟩ ∧
    get_ymdh ⟨999, 1, 1, 0, 0, 0⟩ false =
      some ("999".data, "01".data, "01".data, "00".data) ∧
    ("999".data : PyStr).length ≠ 4 := by
  refine ⟨by decide, ?_, by decide⟩
  simp [get_ymdh, fmtYmdh, fmtY, pad2, natDigits_step, natDigits_small, Nat.digitChar]

/-- Claim C5 (amended): for a fixed instant and flag `get_ymdh` is
deterministic; month, day and hour are two-digit zero-padded; the year is
the unpadded decimal year, which has exactly four digits for years from 1000
through 9999 — in particular for every instant the deployed clock can
produce. -/
theorem claim_c5 (t : PyDateTime) (b : Bool) (y m d h : PyStr)
    (hv : ValidDT t) (hy : 1000 ≤ t.year)
    (hg : get_ymdh t b = some (y, m, d, h)) :
    (∀ r, get_ymdh t b = r → r = some (y, m, d, h)) ∧
    y.length = 4 ∧ m.length = 2 ∧ d.length = 2 ∧ h.length = 2 := by
  refine ⟨fun r hr => by rw [← hr, hg], ?_⟩
  cases b with
  | false =>
    have hsome : some (fmtYmdh t) = some (y, m, d, h) := hg
    have ht := Option.some.inj hsome
    unfold fmtYmdh at ht
    simp only [Prod.mk.injEq] at ht
    obtain ⟨rfl, rfl, rfl, rfl⟩ := ht
    exact fmtYmdh_lengths t hv hy
  | true =>
    cases ha : addOneHour t with
    | none =>
      unfold get_ymdh at hg
      rw [if_pos rfl, ha] at hg
      cases hg
    | some t2 =>
      unfold get_ymdh at hg
      rw [if_pos rfl, ha] at hg
      have ht := Option.some.inj hg
      unfold fmtYmdh at ht
      simp only [Prod.mk.injEq] at ht
      obtain ⟨rfl, rfl, rfl, rfl⟩ := ht
      have hv2 := addOneHour_valid t t2 hv ha
      have hyy := addOneHour_year_le t t2 ha
      exact fmtYmdh_lengths t2 hv2 (by omega)

/-- Witness for the amended C5 at the end of 2023. -/
theorem claim_c5_witness :
    (∀ r, get_ymdh ⟨2023, 12, 31, 23, 59, 0⟩ false = r →
      r = some (fmtY 2023, pad2 12, pad2 31, pad2 23)) ∧
    (fmtY 2023).length = 4 ∧ (pad2 12).length = 2 ∧ (pad2 31).length = 2 ∧
    (pad2 23).length = 2 :=
  claim_c5 ⟨2023, 12, 31, 23, 59, 0⟩ false _ _ _ _ (by decide) (by decide) rfl

/-- The `poem` endpoint passes the volume through unchanged. -/
theorem poem_snd (now : PyDateTime) (vol : Volume) : (poem now vol).2 = vol := by
  unfold poem
  cases hg : get_ymdh now false with
  | none => rfl
  | some ymdh =>
    obtain ⟨y, m, d, h⟩ := ymdh
    rfl

/-- Claim C6: the reader and the writer resolve the persisted resource at
`{volume_root}/{year}/{month}/{day}/{hour}/poem.txt`, the reader using the
current hour's bucket from `get_ymdh` and the writer the next hour's. -/
theorem claim_c6 (now : PyDateTime) (vol : Volume) (loads : PyStr → Option Json)
    (status : Nat) (chunks : List PyStr) :
    (∀ y m d h, get_ymdh now false = some (y, m, d, h) →
      poem now vol =
        (handleRead (read_text vol (poems_path ++ [y, m, d, h, "poem.txt".data])),
          vol)) ∧
    (∀ y m d h p v', get_ymdh now true = some (y, m, d, h) →
      write_poem loads now status chunks vol = some (p, v') →
      v' = volWrite vol (poems_path ++ [y, m, d, h, "poem.txt".data]) p) := by
  constructor
  · intro y m d h hg
    unfold poem
    simp only [hg]
    rfl
  · intro y m d h p v' hg hw
    unfold write_poem at hw
    rw [hg] at hw
    cases ha : (if status = 200 then aggregate loads chunks else some []) with
    | none =>
      rw [ha] at hw
      cases hw
    | some agg =>
      rw [ha] at hw
      injection hw with hw1
      injection hw1 with hp hv
      subst hp
      exact hv.symm

/-- Witness for C6: both path resolutions at a concrete instant, volume, and
stream. -/
theorem claim_c6_witness :
    poem ⟨2023, 1, 2, 3, 4, 5⟩ [] =
      (handleRead (read_text []
        (poems_path ++ [fmtY 2023, pad2 1, pad2 2, pad2 3, "poem.txt".data])), []) ∧
    volWrite [] (bucketPath (fmtY 2023) (pad2 1) (pad2 2) (pad2 4)) [] =
      volWrite []
        (poems_path ++ [fmtY 2023, pad2 1, pad2 2, pad2 4, "poem.txt".data]) [] := by
  have hadd : addOneHour ⟨2023, 1, 2, 3, 4, 5⟩ = some ⟨2023, 1, 2, 4, 4, 5⟩ := by
    decide
  have hg : get_ymdh ⟨2023, 1, 2, 3, 4, 5⟩ true =
      some (fmtY 2023, pad2 1, pad2 2, pad2 4) := by
    simp [get_ymdh, hadd, fmtYmdh]
  have hw : write_poem (fun _ => none) ⟨2023, 1, 2, 3, 4, 5⟩ 0 [] [] =
      some ([], volWrite [] (bucketPath (fmtY 2023) (pad2 1) (pad2 2) (pad2 4)) []) := by
    unfold write_poem
    rw [hg]
    rfl
  exact ⟨(claim_c6 ⟨2023, 1, 2, 3, 4, 5⟩ [] (fun _ => none) 0 []).1 _ _ _ _ rfl,
    (claim_c6 ⟨2023, 1, 2, 3, 4, 5⟩ [] (fun _ => none) 0 []).2 _ _ _ _ _ _ hg hw⟩

/-- Claim C8: a completed `write_poem` creates or fills exactly the next
hour's `poem.txt` — readable back as the returned text — and leaves every
other path on the volume unchanged; the `poem` read endpoint modifies
nothing. -/
theorem claim_c8 (loads : PyStr → Option Json) (now : PyDateTime) (status : Nat)
    (chunks : List PyStr) (vol : Volume) (p : PyStr) (v' : Volume) (y m d h : PyStr)
    (hg : get_ymdh now true = some (y, m, d, h))
    (hw : write_poem loads now status chunks vol = some (p, v')) :
    volRead v' (bucketPath y m d h) = some (Entry.text p) ∧
    (∀ q, q ≠ bucketPath y m d h → volRead v' q = volRead vol q) ∧
    (poem now vol).2 = vol := by
  unfold write_poem at hw
  rw [hg] at hw
  cases ha : (if status = 200 then aggregate loads chunks else some []) with
  | none =>
    rw [ha] at hw
    cases hw
  | some agg =>
    rw [ha] at hw
    injection hw with hw1
    injection hw1 with hp hv
    subst hp
    subst hv
    exact ⟨volRead_volWrite_self _ _ _,
      fun q hq => volRead_volWrite_ne _ _ _ _ hq,
      poem_snd now vol⟩

/-- Witness for C8 at a concrete write: the fresh path reads back, the empty
path is untouched, the endpoint leaves the volume alone. -/
theorem claim_c8_witness :
    volRead (volWrite [] (bucketPath (fmtY 2023) (pad2 1) (pad2 2) (pad2 4)) [])
        (bucketPath (fmtY 2023) (pad2 1) (pad2 2) (pad2 4)) =
      some (Entry.text []) ∧
    volRead (volWrite [] (bucketPath (fmtY 2023) (pad2 1) (pad2 2) (pad2 4)) [])
        [] = volRead [] [] ∧
    (poem ⟨2023, 1, 2, 3, 4, 5⟩ []).2 = [] := by
  have hadd : addOneHour ⟨2023, 1, 2, 3, 4, 5⟩ = some ⟨2023, 1, 2, 4, 4, 5⟩ := by
    decide
  have hg : get_ymdh ⟨2023, 1, 2, 3, 4, 5⟩ true =
      some (fmtY 2023, pad2 1, pad2 2, pad2 4) := by
    simp [get_ymdh, hadd, fmtYmdh]
  have hw : write_poem (fun _ => none) ⟨2023, 1, 2, 3, 4, 5⟩ 0 [] [] =
      some ([], volWrite [] (bucketPath (fmtY 2023) (pad2 1) (pad2 2) (pad2 4)) []) := by
    unfold write_poem
    rw [hg]
    rfl
  have hmain := claim_c8 (fun _ => none) ⟨2023, 1, 2, 3, 4, 5⟩ 0 [] [] _ _ _ _ _ _ hg hw
  exact ⟨hmain.1, hmain.2.1 [] (by simp [bucketPath, poems_path]), hmain.2.2⟩

/-- Claim C9: the `poem` endpoint is total — whatever reading the poem file
does, the endpoint returns a string: the file's text on success, the
file-not-found verse on `FileNotFoundError`, and the unknown-exception verse
on every other exception; no exception propagates and the volume is
untouched. -/
theorem claim_c9 (now : PyDateTime) (vol : Volume) :
    ∃ y m d h, get_ymdh now false = some (y, m, d, h) ∧
      ((∃ s, read_text vol (bucketPath y m d h) = Except.ok s ∧
          poem now vol = (s, vol)) ∨
       (∃ e, read_text vol (bucketPath y m d h) =
            Except.error (ReadErr.fileNotFound e) ∧
          poem now vol = (fnfVerse e, vol)) ∨
       (∃ e, read_text vol (bucketPath y m d h) =
            Except.error (ReadErr.other e) ∧
          poem now vol = (unkVerse e, vol))) := by
  refine ⟨fmtY now.year, pad2 now.month, pad2 now.day, pad2 now.hour, rfl, ?_⟩
  have hp : poem now vol =
      (handleRead (read_text vol
        (bucketPath (fmtY now.year) (pad2 now.month) (pad2 now.day)
          (pad2 now.hour))), vol) := rfl
  cases hr : read_text vol
      (bucketPath (fmtY now.year) (pad2 now.month) (pad2 now.day) (pad2 now.hour)) with
  | ok s =>
    refine Or.inl ⟨s, rfl, ?_⟩
    rw [hp, hr]
    rfl
  | error e =>
    cases e with
    | fileNotFound msg =>
      refine Or.inr (Or.inl ⟨msg, rfl, ?_⟩)
      rw [hp, hr]
      rfl
    | other msg =>
      refine Or.inr (Or.inr ⟨msg, rfl, ?_⟩)
      rw [hp, hr]
      rfl

/-- Claim C10: when the completion response has a non-200 status, or every
streamed line fails JSON decoding, `write_poem` still writes the next hour's
`poem.txt` with the empty string and returns the empty string. -/
theorem claim_c10 (loads : PyStr → Option Json) (now : PyDateTime) (status : Nat)
    (chunks : List PyStr) (vol : Volume) (y m d h : PyStr)
    (hg : get_ymdh now true = some (y, m, d, h)) :
    (status ≠ 200 →
      write_poem loads now status chunks vol =
        some ([], volWrite vol (bucketPath y m d h) [])) ∧
    (status = 200 → (∀ l ∈ fragments chunks, loads (l.drop 6) = none) →
      write_poem loads now status chunks vol =
        some ([], volWrite vol (bucketPath y m d h) [])) := by
  constructor
  · intro hs
    unfold write_poem
    simp only [hg]
    rw [if_neg hs]
    rfl
  · intro hs hall
    unfold write_poem
    simp only [hg]
    rw [if_pos hs, aggregate_all_fail loads chunks hall]
    rfl

/-- Witness for C10: a 404 response at a concrete instant produces the empty
persisted poem. -/
theorem claim_c10_witness :
    write_poem (fun _ => none) ⟨2023, 1, 2, 3, 4, 5⟩ 404 ["junk".data] [] =
      some ([], volWrite [] (bucketPath (fmtY 2023) (pad2 1) (pad2 2) (pad2 4)) []) := by
  have hadd : addOneHour ⟨2023, 1, 2, 3, 4, 5⟩ = some ⟨2023, 1, 2, 4, 4, 5⟩ := by
    decide
  have hg : get_ymdh ⟨2023, 1, 2, 3, 4, 5⟩ true =
      some (fmtY 2023, pad2 1, pad2 2, pad2 4) := by
    simp [get_ymdh, hadd, fmtYmdh]
  exact (claim_c10 (fun _ => none) ⟨2023, 1, 2, 3, 4, 5⟩ 404 ["junk".data] []
    _ _ _ _ hg).1 (by decide)

end Tidbyt

namespace Cuda

open Tidbyt (PyStr pySplit pyJoin)

/-- `cv.split(".") == ["12", "2"]` holds exactly for the string `"12.2"`. -/
theorem pySplit_cuda_iff (cv : PyStr) :
    pySplit '.' cv = ["12".data, "2".data] ↔ cv = "12.2".data := by
  constructor
  · intro h
    have hj := Tidbyt.pyJoin_pySplit '.' cv
    rw [h] at hj
    rw [← hj]
    decide
  · intro h
    subst h
    decide

/-- Claim C7: `nvidia_smi` completes without error exactly when the
inspection command exits with code zero, the parsed document's
`driver_version` has major component `"535"`, and its `cuda_version` equals
`"12.2"`; a non-zero exit code, a wrong driver major, or a wrong CUDA
version each raise a fatal `AssertionError`. -/
theorem claim_c7 (rc : Nat) (doc : XmlDoc) :
    (nvidia_smi rc doc = Except.ok () ↔
      (rc = 0 ∧
        (∃ dv, findText doc driverTag = some dv ∧
          (Tidbyt.pySplit '.' dv).headD [] = "535".data) ∧
        findText doc cudaTag = some ("12.2".data))) ∧
    (rc ≠ 0 → nvidia_smi rc doc = Except.error PyError.assertionError) ∧
    (∀ dv, rc = 0 → findText doc driverTag = some dv →
      (Tidbyt.pySplit '.' dv).headD [] ≠ "535".data →
      nvidia_smi rc doc = Except.error PyError.assertionError) ∧
    (∀ dv cv, rc = 0 → findText doc driverTag = some dv →
      (Tidbyt.pySplit '.' dv).headD [] = "535".data →
      findText doc cudaTag = some cv →
      Tidbyt.pySplit '.' cv ≠ ["12".data, "2".data] →
      nvidia_smi rc doc = Except.error PyError.assertionError) := by
  refine ⟨⟨?_, ?_⟩, ?_, ?_, ?_⟩
  · intro hok
    unfold nvidia_smi at hok
    by_cases hrc : rc ≠ 0
    · rw [if_pos hrc] at hok
      cases hok
    · rw [if_neg hrc] at hok
      cases hdv : findText doc driverTag with
      | none =>
        rw [hdv] at hok
        cases hok
      | some dv =>
        simp only [hdv] at hok
        by_cases h5 : (Tidbyt.pySplit '.' dv).headD [] ≠ "535".data
        · rw [if_pos h5] at hok
          cases hok
        · rw [if_neg h5] at hok
          cases hcv : findText doc cudaTag with
          | none =>
            rw [hcv] at hok
            cases hok
          | some cv =>
            simp only [hcv] at hok
            by_cases h12 : Tidbyt.pySplit '.' cv ≠ ["12".data, "2".data]
            · rw [if_pos h12] at hok
              cases hok
            · have hcv2 : cv = "12.2".data :=
                (pySplit_cuda_iff cv).mp (not_not.mp h12)
              exact ⟨not_not.mp hrc, ⟨dv, rfl, not_not.mp h5⟩, hcv2 ▸ rfl⟩
  · rintro ⟨hrc, ⟨dv, hdv, h5⟩, hcv⟩
    unfold nvidia_smi
    rw [if_neg (by omega)]
    simp only [hdv]
    rw [if_neg (fun hne => hne h5)]
    simp only [hcv]
    rw [if_neg (fun hne => hne ((pySplit_cuda_iff ("12.2".data)).mpr rfl))]
  · intro hrc
    unfold nvidia_smi
    rw [if_pos hrc]
  · intro dv hrc hdv hne
    unfold nvidia_smi
    rw [if_neg (by omega)]
    simp only [hdv]
    rw [if_pos hne]
  · intro dv cv hrc hdv h5 hcv h12
    unfold nvidia_smi
    rw [if_neg (by omega)]
    simp only [hdv]
    rw [if_neg (fun hne => hne h5)]
    simp only [hcv]
    rw [if_pos h12]

/-- Witness for C7: a healthy probe passes; a failing `nvidia-smi` run
aborts with an assertion. -/
theorem claim_c7_witness :
    nvidia_smi 0 [(driverTag, "535.129.03".data), (cudaTag, "12.2".data)] =
      Except.ok () ∧
    nvidia_smi 1 [] = Except.error PyError.assertionError :=
  ⟨(claim_c7 0 [(driverTag, "535.129.03".data), (cudaTag, "12.2".data)]).1.mpr
      ⟨rfl, ⟨"535.129.03".data, by decide, by decide⟩, by decide⟩,
    (claim_c7 1 []).2.1 (by decide)⟩

end Cuda
